import Mathlib

/-!
Verification of the `WriteBufferManager` wrapper
(`src/write_buffer_manager.rs`) of the rust-rocksdb repository.

The Rust file is a thin, safe wrapper around the C `rocksdb_write_buffer_manager_*`
FFI surface.  The wrapper logic (the `Option` shape of `memory_usage`, the
delegation of `new` to `new_with_allow_stall`, the `Arc`-based shared
ownership) is embedded directly from the Rust source.  The C++
`rocksdb::WriteBufferManager` behind the FFI calls is not part of the
repository's `src/` tree, so its state and transitions are modelled from the
specification (memory accountant with a zero-clamped counter, optional cache
cost reservation, and a stall controller gated by `allow_stall` and a
positive `buffer_size`).
-/

namespace RustRocksdb

/-- Modelled from the spec: a shared block cache handle
(`Cache::new_lru_cache(capacity)`); the manager only ever charges an
advisory cost reservation against it, bounded by its capacity. -/
structure Cache where
  capacity : Nat
deriving DecidableEq, Repr

/-- Modelled from the spec: constructing an LRU cache of a given byte
capacity. -/
def Cache.new_lru_cache (capacity : Nat) : Cache :=
  { capacity := capacity }

/-- Modelled from the spec: the state of the underlying C++
`rocksdb::WriteBufferManager` reached through the FFI pointer.  The fields
are the spec's data model: the immutable `limit_bytes` (`buffer_size`) and
`allow_stall` configuration, the mutable `used_bytes` counter
(`memory_used`), the optional cache with its current cost reservation, and
the set of currently stalled caller threads (identified by `Nat` ids). -/
structure FfiWriteBufferManager where
  buffer_size : Nat
  allow_stall : Bool
  cache : Option Cache
  cacheCost : Nat
  memory_used : Nat
  stalled : List Nat
deriving DecidableEq, Repr

/-- Modelled from the spec: `rocksdb_write_buffer_manager_create` builds a
manager with the given limit and stall configuration, no cache, zero usage
and no stalled callers. -/
def rocksdb_write_buffer_manager_create (buffer_size : Nat) (allow_stall : Bool) :
    FfiWriteBufferManager :=
  { buffer_size := buffer_size
    allow_stall := allow_stall
    cache := none
    cacheCost := 0
    memory_used := 0
    stalled := [] }

/-- Modelled from the spec: `rocksdb_write_buffer_manager_create_with_cache`
additionally registers a shared cache; the initial cost reservation is 0. -/
def rocksdb_write_buffer_manager_create_with_cache (buffer_size : Nat) (cache : Cache)
    (allow_stall : Bool) : FfiWriteBufferManager :=
  { buffer_size := buffer_size
    allow_stall := allow_stall
    cache := some cache
    cacheCost := 0
    memory_used := 0
    stalled := [] }

/-- Modelled from the spec: the FFI `enabled` query returns a C boolean
(`unsigned char`): nonzero exactly when a positive limit was configured
(`enabled() == (limit_bytes > 0)`). -/
def rocksdb_write_buffer_manager_enabled (m : FfiWriteBufferManager) : Nat :=
  if 0 < m.buffer_size then 1 else 0

/-- Modelled from the spec: the FFI `memory_usage` query reads the
`used_bytes` counter. -/
def rocksdb_write_buffer_manager_memory_usage (m : FfiWriteBufferManager) : Nat :=
  m.memory_used

/-- Modelled from the spec: the FFI `buffer_size` query reads the configured
limit. -/
def rocksdb_write_buffer_manager_buffer_size (m : FfiWriteBufferManager) : Nat :=
  m.buffer_size

/-- Modelled from the spec: the advisory cache cost reservation mirrors the
usage counter but degrades gracefully when the cache cannot honor the full
charge, so it is bounded by the cache capacity; absent cache means no cost. -/
def cacheCostFor (cache : Option Cache) (used : Nat) : Nat :=
  match cache with
  | some c => min used c.capacity
  | none => 0

/-- Modelled from the spec: `record_allocation` (`on_memtable_grow`,
RocksDB's `ReserveMem`) increases `used_bytes` by the reported delta,
mirrors the delta into the cache cost reservation, and — when
`allow_stall` is set, a positive limit is configured, and the new usage
exceeds the limit — stalls the calling thread `tid` (it joins the set of
blocked waiters). -/
def record_allocation (m : FfiWriteBufferManager) (tid : Nat) (bytes : Nat) :
    FfiWriteBufferManager :=
  let used := m.memory_used + bytes
  let st :=
    if m.allow_stall && decide (0 < m.buffer_size) && decide (m.buffer_size < used) then
      tid :: m.stalled
    else
      m.stalled
  { m with
    memory_used := used
    cacheCost := cacheCostFor m.cache used
    stalled := st }

/-- Modelled from the spec: `record_free` (`on_memtable_shrink`, RocksDB's
`FreeMem`) decreases `used_bytes` by the reported delta, clamped at a zero
floor, mirrors it into the cache cost reservation, and — when the new usage
is back at or below the limit — wakes every stalled waiter by broadcast
(the stalled set empties). -/
def record_free (m : FfiWriteBufferManager) (bytes : Nat) : FfiWriteBufferManager :=
  let used := m.memory_used - bytes
  let st := if used ≤ m.buffer_size then [] else m.stalled
  { m with
    memory_used := used
    cacheCost := cacheCostFor m.cache used
    stalled := st }

/-- The public Rust handle: a `Clone`-able reference to the shared FFI
manager state (`pub struct WriteBufferManager(pub(crate) Arc<WriteBufferManagerWrapper>)`). -/
structure WriteBufferManager where
  state : FfiWriteBufferManager
deriving DecidableEq, Repr

/-- `WriteBufferManager::new_with_allow_stall`: builds the FFI manager via
`rocksdb_write_buffer_manager_create(buffer_size, allow_stall)`. -/
def WriteBufferManager.new_with_allow_stall (buffer_size : Nat) (allow_stall : Bool) :
    WriteBufferManager :=
  { state := rocksdb_write_buffer_manager_create buffer_size allow_stall }

/-- `WriteBufferManager::new`: delegates to
`Self::new_with_allow_stall(buffer_size, false)`. -/
def WriteBufferManager.new (buffer_size : Nat) : WriteBufferManager :=
  WriteBufferManager.new_with_allow_stall buffer_size false

/-- `WriteBufferManager::new_with_cache`: builds the FFI manager via
`rocksdb_write_buffer_manager_create_with_cache(buffer_size, cache, allow_stall)`. -/
def WriteBufferManager.new_with_cache (buffer_size : Nat) (cache : Cache)
    (allow_stall : Bool) : WriteBufferManager :=
  { state := rocksdb_write_buffer_manager_create_with_cache buffer_size cache allow_stall }

/-- `WriteBufferManager::enabled`: the FFI call's C boolean compared against
zero (`... != 0`). -/
def WriteBufferManager.enabled (m : WriteBufferManager) : Bool :=
  rocksdb_write_buffer_manager_enabled m.state != 0

/-- `WriteBufferManager::memory_usage`: `Some` of the FFI usage reading when
`enabled()`, otherwise `None`. -/
def WriteBufferManager.memory_usage (m : WriteBufferManager) : Option Nat :=
  if m.enabled then
    some (rocksdb_write_buffer_manager_memory_usage m.state)
  else
    none

/-- `WriteBufferManager::buffer_size`: the FFI `buffer_size` reading. -/
def WriteBufferManager.buffer_size (m : WriteBufferManager) : Nat :=
  rocksdb_write_buffer_manager_buffer_size m.state

/-- `Clone for WriteBufferManager` (derived): a clone is a handle to the very
same shared manager state. -/
def WriteBufferManager.clone (m : WriteBufferManager) : WriteBufferManager :=
  m

/-- An engine instance reporting a memtable allocation through its handle. -/
def WriteBufferManager.grow (m : WriteBufferManager) (tid bytes : Nat) :
    WriteBufferManager :=
  { state := record_allocation m.state tid bytes }

/-- An engine instance reporting a memtable free through its handle. -/
def WriteBufferManager.shrink (m : WriteBufferManager) (bytes : Nat) :
    WriteBufferManager :=
  { state := record_free m.state bytes }

/-- A single accounting event: a grow or a shrink by a byte delta. -/
inductive MemOp where
  | grow (bytes : Nat)
  | shrink (bytes : Nat)
deriving DecidableEq, Repr

/-- Applying one accounting event to the shared FFI state (grows are
attributed to thread id 0; the accounting is thread-agnostic). -/
def applyMemOp (m : FfiWriteBufferManager) : MemOp → FfiWriteBufferManager
  | MemOp.grow b => record_allocation m 0 b
  | MemOp.shrink b => record_free m b

/-- Running a sequence of accounting events against the shared FFI state. -/
def runMemOps (m : FfiWriteBufferManager) (ops : List MemOp) : FfiWriteBufferManager :=
  List.foldl applyMemOp m ops

/-- Total bytes grown over a sequence of accounting events. -/
def sumGrows : List MemOp → Nat
  | [] => 0
  | MemOp.grow b :: rest => b + sumGrows rest
  | MemOp.shrink _ :: rest => sumGrows rest

/-- Total bytes shrunk over a sequence of accounting events. -/
def sumShrinks : List MemOp → Nat
  | [] => 0
  | MemOp.grow _ :: rest => sumShrinks rest
  | MemOp.shrink b :: rest => b + sumShrinks rest

/-- Modelled from the spec: one lifecycle event on the reference-counted
handle — cloning a live handle or dropping a live handle. -/
inductive HandleEvent where
  | clone
  | drop
deriving DecidableEq, Repr

/-- Modelled from the spec: the observable lifecycle state of the shared
manager — how many live handles exist and how many times the underlying
manager was destroyed (`rocksdb_write_buffer_manager_destroy`). -/
structure ArcState where
  strong : Nat
  destroyCount : Nat
deriving DecidableEq, Repr

/-- Modelled from the spec: `Arc` reference counting together with the
`Drop for WriteBufferManagerWrapper` impl — cloning bumps the handle count,
dropping decrements it, and dropping the last handle runs the wrapper's
`Drop`, which destroys the underlying manager. -/
def stepHandle (s : ArcState) : HandleEvent → ArcState
  | HandleEvent.clone => { s with strong := s.strong + 1 }
  | HandleEvent.drop =>
      if s.strong = 1 then
        { strong := 0, destroyCount := s.destroyCount + 1 }
      else
        { s with strong := s.strong - 1 }

/-- Running a sequence of handle lifecycle events. -/
def runHandleEvents (s : ArcState) (es : List HandleEvent) : ArcState :=
  List.foldl stepHandle s es

/-- A lifecycle event sequence is valid when every event acts on a live
handle: the running handle count is positive at each step. -/
def validEvents : Nat → List HandleEvent → Bool
  | _, [] => true
  | n, HandleEvent.clone :: rest => decide (0 < n) && validEvents (n + 1) rest
  | n, HandleEvent.drop :: rest => decide (0 < n) && validEvents (n - 1) rest

/-! Helper lemmas shared by the claim theorems. -/

theorem record_allocation_memory_used (m : FfiWriteBufferManager) (tid b : Nat) :
    (record_allocation m tid b).memory_used = m.memory_used + b := rfl

theorem record_free_memory_used (m : FfiWriteBufferManager) (b : Nat) :
    (record_free m b).memory_used = m.memory_used - b := rfl

theorem record_allocation_buffer_size (m : FfiWriteBufferManager) (tid b : Nat) :
    (record_allocation m tid b).buffer_size = m.buffer_size := rfl

theorem record_free_buffer_size (m : FfiWriteBufferManager) (b : Nat) :
    (record_free m b).buffer_size = m.buffer_size := rfl

theorem runMemOps_memory_used (ops : List MemOp) (m : FfiWriteBufferManager)
    (h : ∀ n, sumShrinks (ops.take n) ≤ m.memory_used + sumGrows (ops.take n)) :
    (runMemOps m ops).memory_used = m.memory_used + sumGrows ops - sumShrinks ops := by
  induction ops generalizing m with
  | nil => simp [runMemOps, sumGrows, sumShrinks]
  | cons op rest ih =>
    cases op with
    | grow b =>
      have hrest : ∀ n, sumShrinks (rest.take n)
          ≤ (record_allocation m 0 b).memory_used + sumGrows (rest.take n) := by
        intro n
        have hn := h (n + 1)
        simp [sumGrows, sumShrinks, record_allocation_memory_used] at hn ⊢
        omega
      have hr := ih (record_allocation m 0 b) hrest
      simp only [runMemOps, List.foldl_cons, applyMemOp] at hr ⊢
      rw [hr, record_allocation_memory_used]
      simp [sumGrows, sumShrinks]
      omega
    | shrink b =>
      have hb : b ≤ m.memory_used := by
        have h1 := h 1
        simp [sumGrows, sumShrinks] at h1
        omega
      have hrest : ∀ n, sumShrinks (rest.take n)
          ≤ (record_free m b).memory_used + sumGrows (rest.take n) := by
        intro n
        have hn := h (n + 1)
        simp [sumGrows, sumShrinks, record_free_memory_used] at hn ⊢
        omega
      have htot := hrest rest.length
      simp [List.take_length] at htot
      have hr := ih (record_free m b) hrest
      simp only [runMemOps, List.foldl_cons, applyMemOp] at hr ⊢
      rw [hr, record_free_memory_used]
      simp [sumGrows, sumShrinks]
      omega

theorem runMemOps_stalled_nil (ops : List MemOp) (m : FfiWriteBufferManager)
    (h0 : m.buffer_size = 0) (hs : m.stalled = []) :
    (runMemOps m ops).stalled = [] := by
  induction ops generalizing m with
  | nil => simpa [runMemOps] using hs
  | cons op rest ih =>
    cases op with
    | grow b =>
      simp only [runMemOps, List.foldl_cons, applyMemOp] at ih ⊢
      refine ih (record_allocation m 0 b) ?_ ?_
      · simpa [record_allocation_buffer_size] using h0
      · simp [record_allocation, h0, hs]
    | shrink b =>
      simp only [runMemOps, List.foldl_cons, applyMemOp] at ih ⊢
      refine ih (record_free m b) ?_ ?_
      · simpa [record_free_buffer_size] using h0
      · simp [record_free, hs]

theorem runHandleEvents_destroy (es : List HandleEvent) (s : ArcState)
    (hv : validEvents s.strong es = true) (hpos : 0 < s.strong)
    (hd : s.destroyCount = 0) :
    (runHandleEvents s es).destroyCount
      = (if (runHandleEvents s es).strong = 0 then 1 else 0) := by
  induction es generalizing s with
  | nil =>
    simp only [runHandleEvents, List.foldl_nil]
    rw [hd, if_neg (by omega)]
  | cons e rest ih =>
    cases e with
    | clone =>
      simp only [validEvents, Bool.and_eq_true, decide_eq_true_eq] at hv
      simp only [runHandleEvents, List.foldl_cons, stepHandle]
      exact ih { s with strong := s.strong + 1 } hv.2 (Nat.succ_pos _) hd
    | drop =>
      simp only [validEvents, Bool.and_eq_true, decide_eq_true_eq] at hv
      simp only [runHandleEvents, List.foldl_cons, stepHandle]
      split
      · rename_i h1
        cases rest with
        | nil => simp [runHandleEvents, hd]
        | cons e' rest' =>
          exfalso
          have hz := hv.2
          rw [h1] at hz
          cases e' <;> simp [validEvents] at hz
      · rename_i h1
        have hres := ih { s with strong := s.strong - 1 } hv.2
          (show 0 < s.strong - 1 by omega) hd
        simpa [runHandleEvents] using hres

/-! The claim theorems. -/

/-- C1: for every `WriteBufferManager`, `memory_usage()` returns `Some` of the
current tracked usage if and only if `enabled()` is true, and returns `None`
if and only if `enabled()` is false; usage tracking still advances the
internal counter on a disabled manager. -/
theorem wbm_usage_some_iff_enabled (m : WriteBufferManager) :
    (m.memory_usage = some (rocksdb_write_buffer_manager_memory_usage m.state)
      ↔ m.enabled = true)
    ∧ (m.memory_usage = none ↔ m.enabled = false)
    ∧ ∀ tid b, (record_allocation m.state tid b).memory_used
        = m.state.memory_used + b := by
  refine ⟨?_, ?_, fun tid b => rfl⟩ <;>
    by_cases h : m.enabled <;> simp [WriteBufferManager.memory_usage, h]

/-- C2: `enabled()` is true exactly when the configured `buffer_size`
(`limit_bytes`) is positive; it is independent of `allow_stall` and is
unchanged by any allocation or free. -/
theorem wbm_enabled_iff_pos_limit (m : WriteBufferManager) :
    m.enabled = decide (0 < m.buffer_size)
    ∧ (∀ (B : Nat) (s : Bool),
        (WriteBufferManager.new_with_allow_stall B s).enabled = decide (0 < B))
    ∧ (∀ tid b, (m.grow tid b).enabled = m.enabled)
    ∧ (∀ b, (m.shrink b).enabled = m.enabled) := by
  refine ⟨?_, fun B s => ?_, fun tid b => rfl, fun b => rfl⟩
  · by_cases h : 0 < m.state.buffer_size <;>
      simp [WriteBufferManager.enabled, rocksdb_write_buffer_manager_enabled,
        WriteBufferManager.buffer_size, rocksdb_write_buffer_manager_buffer_size, h]
  · by_cases h : 0 < B <;>
      simp [WriteBufferManager.enabled, WriteBufferManager.new_with_allow_stall,
        rocksdb_write_buffer_manager_enabled, rocksdb_write_buffer_manager_create, h]

/-- C3 counterexample: the claim's formula fails on the sequence
`[shrink 1, grow 1]` applied to a freshly constructed manager: the per-call
zero clamp makes the final tracked usage 1, while the claimed
`sum of grows - sum of shrinks` (clamped at zero) is 0. -/
theorem wbm_usage_sum_formula_counterexample :
    ¬ ((runMemOps (WriteBufferManager.new 5).state [MemOp.shrink 1, MemOp.grow 1]).memory_used
        = sumGrows [MemOp.shrink 1, MemOp.grow 1]
          - sumShrinks [MemOp.shrink 1, MemOp.grow 1]) := by
  decide

/-- C3 (amended): for every sequence of grow/shrink calls in which no prefix
shrinks more than it has grown (frees never exceed tracked allocations), the
tracked usage after the sequence equals the sum of grows minus the sum of
shrinks, and at every intermediate point the tracked usage equals that same
non-negative difference for the prefix (so it is never negative). -/
theorem wbm_usage_sum_formula (B : Nat) (s : Bool) (ops : List MemOp)
    (h : ∀ n, sumShrinks (ops.take n) ≤ sumGrows (ops.take n)) :
    (runMemOps (WriteBufferManager.new_with_allow_stall B s).state ops).memory_used
      = sumGrows ops - sumShrinks ops
    ∧ ∀ n, (runMemOps (WriteBufferManager.new_with_allow_stall B s).state
          (ops.take n)).memory_used
        = sumGrows (ops.take n) - sumShrinks (ops.take n) := by
  have key : ∀ l : List MemOp, (∀ n, sumShrinks (l.take n) ≤ sumGrows (l.take n)) →
      (runMemOps (WriteBufferManager.new_with_allow_stall B s).state l).memory_used
        = sumGrows l - sumShrinks l := by
    intro l hl
    have h0 : (WriteBufferManager.new_with_allow_stall B s).state.memory_used = 0 := rfl
    have := runMemOps_memory_used l (WriteBufferManager.new_with_allow_stall B s).state
      (by intro n; rw [h0]; simpa using hl n)
    rw [this, h0]
    simp
  refine ⟨key ops h, fun n => key (ops.take n) ?_⟩
  intro k
  rw [List.take_take]
  exact h (min k n)

/-- C3 witness: the amended accounting formula at the concrete sequence
grow 3 then shrink 2 on a manager with limit 10: final usage 3 - 2 = 1. -/
theorem wbm_usage_sum_formula_witness :
    (∀ n, sumShrinks (([MemOp.grow 3, MemOp.shrink 2]).take n)
        ≤ sumGrows (([MemOp.grow 3, MemOp.shrink 2]).take n))
    ∧ (runMemOps (WriteBufferManager.new_with_allow_stall 10 false).state
        [MemOp.grow 3, MemOp.shrink 2]).memory_used
      = sumGrows [MemOp.grow 3, MemOp.shrink 2]
        - sumShrinks [MemOp.grow 3, MemOp.shrink 2] := by
  have h : ∀ n, sumShrinks (([MemOp.grow 3, MemOp.shrink 2]).take n)
      ≤ sumGrows (([MemOp.grow 3, MemOp.shrink 2]).take n) := by
    intro n
    match n with
    | 0 => decide
    | 1 => decide
    | k + 2 =>
      have htake : ([MemOp.grow 3, MemOp.shrink 2]).take (k + 2)
          = [MemOp.grow 3, MemOp.shrink 2] := by
        simp [List.take]
      rw [htake]
      decide
  exact ⟨h, (wbm_usage_sum_formula 10 false [MemOp.grow 3, MemOp.shrink 2] h).1⟩

/-- C4: every constructor round-trips the configured `buffer_size`, including
`buffer_size = 0`, and the configured limit is unchanged by every allocation
and free for the lifetime of the manager. -/
theorem wbm_buffer_size_roundtrip (B : Nat) (s : Bool) (c : Cache) :
    (WriteBufferManager.new B).buffer_size = B
    ∧ (WriteBufferManager.new_with_allow_stall B s).buffer_size = B
    ∧ (WriteBufferManager.new_with_cache B c s).buffer_size = B
    ∧ ∀ (m : WriteBufferManager) (tid b : Nat),
        (m.grow tid b).buffer_size = m.buffer_size
        ∧ (m.shrink b).buffer_size = m.buffer_size :=
  ⟨rfl, rfl, rfl, fun _ _ _ => ⟨rfl, rfl⟩⟩

/-- C5: an enabled manager reports `some 0` immediately after construction,
and the concrete scenario holds: limit 102400, `allow_stall = false`, a
10240-byte cache — usage `some 0`, then `some 50000` after growing 50000
bytes, then `some 0` again after shrinking 50000 bytes. -/
theorem wbm_fresh_usage_zero_and_scenario :
    (∀ (B : Nat) (s : Bool) (c : Cache), 0 < B →
        (WriteBufferManager.new_with_cache B c s).memory_usage = some 0)
    ∧ (WriteBufferManager.new_with_cache 102400 (Cache.new_lru_cache 10240)
        false).memory_usage = some 0
    ∧ ((WriteBufferManager.new_with_cache 102400 (Cache.new_lru_cache 10240)
        false).grow 0 50000).memory_usage = some 50000
    ∧ (((WriteBufferManager.new_with_cache 102400 (Cache.new_lru_cache 10240)
        false).grow 0 50000).shrink 50000).memory_usage = some 0 := by
  refine ⟨fun B s c hB => ?_, by decide, by decide, by decide⟩
  simp [WriteBufferManager.memory_usage, WriteBufferManager.enabled,
    WriteBufferManager.new_with_cache, rocksdb_write_buffer_manager_enabled,
    rocksdb_write_buffer_manager_memory_usage,
    rocksdb_write_buffer_manager_create_with_cache, hB]

/-- C5 witness: the general part of the scenario claim applied at a concrete
enabled configuration. -/
theorem wbm_fresh_usage_zero_and_scenario_witness :
    0 < 7
    ∧ (WriteBufferManager.new_with_cache 7 (Cache.new_lru_cache 3)
        true).memory_usage = some 0 :=
  ⟨by decide,
    wbm_fresh_usage_zero_and_scenario.1 7 true (Cache.new_lru_cache 3) (by decide)⟩

/-- C6: with `allow_stall = false`, reporting an allocation never stalls the
calling thread (no thread ever joins the stalled set), however far usage
exceeds the configured limit; usage stays tracked and queryable. -/
theorem wbm_no_stall_when_disallowed (m : WriteBufferManager) (tid b : Nat)
    (h : m.state.allow_stall = false) :
    (m.grow tid b).state.stalled = m.state.stalled
    ∧ (m.grow tid b).state.memory_used = m.state.memory_used + b
    ∧ (m.grow tid b).enabled = m.enabled
    ∧ (m.enabled = true →
        (m.grow tid b).memory_usage = some (m.state.memory_used + b)) := by
  refine ⟨?_, rfl, rfl, fun he => ?_⟩
  · simp [WriteBufferManager.grow, record_allocation, h]
  · have hgrow : (m.grow tid b).enabled = true := he
    simp only [WriteBufferManager.memory_usage, hgrow,
      rocksdb_write_buffer_manager_memory_usage, if_true]
    rfl

/-- C6 witness: a manager with limit 5 and `allow_stall = false` growing by
100 bytes (far past the limit) leaves the stalled set unchanged. -/
theorem wbm_no_stall_when_disallowed_witness :
    (WriteBufferManager.new 5).state.allow_stall = false
    ∧ ((WriteBufferManager.new 5).grow 1 100).state.stalled
        = (WriteBufferManager.new 5).state.stalled :=
  ⟨by decide, (wbm_no_stall_when_disallowed (WriteBufferManager.new 5) 1 100 rfl).1⟩

/-- C7: with `limit_bytes = 0` the manager is disabled: no allocation over
any sequence of calls ever stalls a thread, regardless of `allow_stall`,
while the usage counter is still updated by grows and (zero-clamped)
shrinks. -/
theorem wbm_limit_zero_never_stalls (m : WriteBufferManager) (tid b : Nat)
    (ops : List MemOp) (h : m.state.buffer_size = 0) :
    m.enabled = false
    ∧ (m.grow tid b).state.stalled = m.state.stalled
    ∧ (m.state.stalled = [] → (runMemOps m.state ops).stalled = [])
    ∧ (m.grow tid b).state.memory_used = m.state.memory_used + b
    ∧ (m.shrink b).state.memory_used = m.state.memory_used - b := by
  refine ⟨?_, ?_, fun hs => runMemOps_stalled_nil ops m.state h hs, rfl, rfl⟩
  · simp [WriteBufferManager.enabled, rocksdb_write_buffer_manager_enabled, h]
  · simp [WriteBufferManager.grow, record_allocation, h]

/-- C7 witness: a manager with limit 0 and `allow_stall = true` grows past
zero and stalls nobody over a whole sequence of calls. -/
theorem wbm_limit_zero_never_stalls_witness :
    (WriteBufferManager.new_with_allow_stall 0 true).state.buffer_size = 0
    ∧ (WriteBufferManager.new_with_allow_stall 0 true).state.stalled = []
    ∧ (runMemOps (WriteBufferManager.new_with_allow_stall 0 true).state
        [MemOp.grow 9, MemOp.shrink 4, MemOp.grow 2]).stalled = [] :=
  ⟨by decide, by decide,
    (wbm_limit_zero_never_stalls (WriteBufferManager.new_with_allow_stall 0 true)
      0 0 [MemOp.grow 9, MemOp.shrink 4, MemOp.grow 2] rfl).2.2.1 rfl⟩

/-- C8: with `allow_stall = true` and a positive limit, an allocation whose
post-usage exceeds the limit stalls the calling thread (it joins the set of
blocked waiters); a free that does not bring usage back to the limit leaves
every waiter blocked; and a free that brings usage at or below the limit
wakes all currently blocked waiters by broadcast (the stalled set empties,
and each resumed caller sees the re-validated state). -/
theorem wbm_stall_and_broadcast_wake (m : WriteBufferManager) (tid b fb : Nat)
    (hs : m.state.allow_stall = true) (hl : 0 < m.state.buffer_size) :
    (m.state.buffer_size < m.state.memory_used + b →
        (m.grow tid b).state.stalled = tid :: m.state.stalled)
    ∧ (m.state.buffer_size < m.state.memory_used - fb →
        (m.shrink fb).state.stalled = m.state.stalled)
    ∧ (m.state.memory_used - fb ≤ m.state.buffer_size →
        (m.shrink fb).state.stalled = []) := by
  refine ⟨fun hover => ?_, fun hstill => ?_, fun hback => ?_⟩
  · simp [WriteBufferManager.grow, record_allocation, hs, hl, hover]
  · simp [WriteBufferManager.shrink, record_free, Nat.not_le_of_lt hstill]
  · simp [WriteBufferManager.shrink, record_free, hback]

/-- C8 witness: a manager with limit 5 and `allow_stall = true`: thread 1
growing usage to 10 stalls, and a shrink of 10 bringing usage back to 0
empties the stalled set. -/
theorem wbm_stall_and_broadcast_wake_witness :
    (WriteBufferManager.new_with_allow_stall 5 true).state.allow_stall = true
    ∧ 0 < (WriteBufferManager.new_with_allow_stall 5 true).state.buffer_size
    ∧ ((WriteBufferManager.new_with_allow_stall 5 true).grow 1 10).state.stalled
        = 1 :: (WriteBufferManager.new_with_allow_stall 5 true).state.stalled
    ∧ (((WriteBufferManager.new_with_allow_stall 5 true).grow 1 10).shrink
        10).state.stalled = [] :=
  ⟨by decide, by decide,
    (wbm_stall_and_broadcast_wake (WriteBufferManager.new_with_allow_stall 5 true)
      1 10 0 rfl (by decide)).1 (by decide),
    (wbm_stall_and_broadcast_wake
      ((WriteBufferManager.new_with_allow_stall 5 true).grow 1 10)
      0 0 10 rfl (by decide)).2.2 (by decide)⟩

/-- C9: over every valid handle-lifecycle event sequence starting from the
single handle produced by construction, the underlying manager is destroyed
exactly once when the last handle is dropped and zero times while any handle
remains live; and a cloned handle refers to the very same shared manager
state. -/
theorem wbm_destroy_once_after_last_drop (es : List HandleEvent)
    (hv : validEvents 1 es = true) :
    ((runHandleEvents { strong := 1, destroyCount := 0 } es).destroyCount
      = if (runHandleEvents { strong := 1, destroyCount := 0 } es).strong = 0
        then 1 else 0)
    ∧ ∀ (m : WriteBufferManager), m.clone.state = m.state :=
  ⟨runHandleEvents_destroy es { strong := 1, destroyCount := 0 } hv
      (Nat.one_pos) rfl,
    fun _ => rfl⟩

/-- C9 witness: one construction handle, one clone, then both handles
dropped: the manager is destroyed exactly once, at the second drop. -/
theorem wbm_destroy_once_after_last_drop_witness :
    validEvents 1 [HandleEvent.clone, HandleEvent.drop, HandleEvent.drop] = true
    ∧ (runHandleEvents { strong := 1, destroyCount := 0 }
        [HandleEvent.clone, HandleEvent.drop, HandleEvent.drop]).destroyCount
      = if (runHandleEvents { strong := 1, destroyCount := 0 }
          [HandleEvent.clone, HandleEvent.drop, HandleEvent.drop]).strong = 0
        then 1 else 0 :=
  ⟨by decide,
    (wbm_destroy_once_after_last_drop
      [HandleEvent.clone, HandleEvent.drop, HandleEvent.drop] (by decide)).1⟩

/-- C10: `new(B)` is exactly `new_with_allow_stall(B, false)`: the managers
are equal, the single-argument constructor fixes `allow_stall` to `false`,
and all observable queries agree. -/
theorem wbm_new_eq_new_with_allow_stall_false (B : Nat) :
    WriteBufferManager.new B = WriteBufferManager.new_with_allow_stall B false
    ∧ (WriteBufferManager.new B).state.allow_stall = false
    ∧ (WriteBufferManager.new B).enabled
        = (WriteBufferManager.new_with_allow_stall B false).enabled
    ∧ (WriteBufferManager.new B).memory_usage
        = (WriteBufferManager.new_with_allow_stall B false).memory_usage
    ∧ (WriteBufferManager.new B).buffer_size
        = (WriteBufferManager.new_with_allow_stall B false).buffer_size :=
  ⟨rfl, rfl, rfl, rfl, rfl⟩

end RustRocksdb
